import Mathlib

/-!
Verification development for the incremental Zotero synchronization and tag
reconciliation engine (SyncManager, VersionTracker, ZoteroApiClient).

The definitions below are a shallow embedding of the TypeScript source:
  - tag normalization, frontmatter tag parsing and the two-way tag merge of
    SyncManager.syncTagsTwoWay / pushTagsToZotero (note-renderer.ts),
  - the skip decision of SyncManager.syncAll together with
    VersionTracker.isItemChanged (version-tracker.ts),
  - the full cycle SyncManager.syncAll and SyncManager.syncSingleItem, with
    the external collaborators (remote fetch, renderer, filename generation,
    write failures) supplied as an explicit environment record.
-/

/-- Whitespace as matched by the backslash-s character class of the source
regexes (space, tab, newline, carriage return). -/
def isWsChar (c : Char) : Bool :=
  c == ' ' || c == '\t' || c == '\n' || c == '\r'

/-- Replaces every maximal whitespace run by a single hyphen; the Boolean
records whether the previous character was part of a whitespace run.  This is
the replace of a whitespace-plus regex by a hyphen in the source. -/
def squashWs : Bool → List Char → List Char
  | _, [] => []
  | inRun, c :: rest =>
    if isWsChar c then
      if inRun then squashWs true rest else '-' :: squashWs true rest
    else c :: squashWs false rest

/-- Document-side tag formatting: whitespace runs become hyphens
(note-renderer.ts, the replace applied when a Zotero tag is written). -/
def hyphenate (t : String) : String :=
  String.mk (squashWs false t.data)

/-- Remote-side tag formatting: every hyphen becomes a space
(note-renderer.ts, pushTagsToZotero). -/
def dehyphenate (t : String) : String :=
  String.mk (t.data.map (fun c => if c == '-' then ' ' else c))

/-- SyncManager.normalizeTag: replace hyphens by spaces, then lowercase. -/
def normalizeTag (t : String) : String :=
  String.mk ((dehyphenate t).data.map Char.toLower)

/-- Character-list prefix test (used to model the anchored pieces of the
frontmatter regexes). -/
def leadsWith : List Char → List Char → Bool
  | [], _ => true
  | _ :: _, [] => false
  | a :: as, b :: bs => a == b && leadsWith as bs

/-- Substring occurrence, modelling String.prototype.includes. -/
def containsSubstrAux (pat : List Char) : List Char → Bool
  | [] => pat.isEmpty
  | c :: rest => leadsWith pat (c :: rest) || containsSubstrAux pat rest

/-- String containment test, modelling String.prototype.includes. -/
def containsSubstr (s pat : String) : Bool :=
  containsSubstrAux pat.data s.data

/-- Split on newline characters, keeping empty segments, as the split used by
parseFrontmatterTags does. -/
def splitLinesAux (acc : List Char) : List Char → List String
  | [] => [String.mk acc.reverse]
  | c :: rest =>
    if c == '\n' then String.mk acc.reverse :: splitLinesAux [] rest
    else splitLinesAux (c :: acc) rest

/-- All lines of a string. -/
def splitLines (s : String) : List String :=
  splitLinesAux [] s.data

/-- Trim leading and trailing whitespace, as the trim applied to each parsed
tag entry. -/
def trimWs (l : List Char) : List Char :=
  ((l.dropWhile isWsChar).reverse.dropWhile isWsChar).reverse

/-- One dash entry of the tags block: optional leading whitespace, a hyphen,
then at least one further character; the tag is the trimmed remainder.  Models
the per-line dash regex of parseFrontmatterTags. -/
def parseDashLine (l : String) : Option String :=
  match l.data.dropWhile isWsChar with
  | '-' :: tail => if tail.isEmpty then none else some (String.mk (trimWs tail))
  | _ => none

/-- A line consisting of whitespace only. -/
def isWsOnly (l : String) : Bool :=
  l.data.all isWsChar

/-- Scan the frontmatter lines for the first tags header line, then collect
the dash entries that follow it.  Models the tags-block regex of
parseFrontmatterTags. -/
def extractFmTags : List String → List String
  | [] => []
  | l :: rest =>
    if leadsWith "tags:".data l.data && isWsOnly (String.mk (l.data.drop 5)) then
      (rest.takeWhile (fun x => (parseDashLine x).isSome || isWsOnly x)).filterMap parseDashLine
    else extractFmTags rest

/-- SyncManager.parseFrontmatterTags: the tags listed in the YAML frontmatter
block of a document.  The two source regexes are modelled line by line: the
document must open with a fence line, the frontmatter runs up to the first
closing fence line (which must exist), and within it the first tags header
starts a block of dash entries. -/
def parseFrontmatterTags (content : String) : List String :=
  match splitLines content with
  | [] => []
  | first :: rest =>
    if first == "---" then
      let fm := rest.takeWhile (fun l => !(leadsWith "---".data l.data))
      if fm.length == rest.length then [] else extractFmTags fm
    else []

/-- Lexicographic character-sequence comparison, the order the default JS
array sort applies to strings. -/
def lexLe : List Char → List Char → Bool
  | [], _ => true
  | _ :: _, [] => false
  | a :: as, b :: bs =>
    if a.toNat < b.toNat then true
    else if b.toNat < a.toNat then false
    else lexLe as bs

/-- String comparison used when sorting normalized tag lists. -/
def strLe (a b : String) : Prop :=
  lexLe a.data b.data = true

instance : DecidableRel strLe :=
  fun a b => inferInstanceAs (Decidable (lexLe a.data b.data = true))

/-- SyncManager.tagsEqual: equal lengths and equal sorted lists of normalized
tags. -/
def tagsEqual (a b : List String) : Bool :=
  a.length == b.length &&
    (List.insertionSort strLe (a.map normalizeTag)
      == List.insertionSort strLe (b.map normalizeTag))

/-- Membership in a list of strings, modelling the has test of the JS Set
objects the merge builds. -/
def memS : List String → String → Bool
  | [], _ => false
  | x :: xs, a => x == a || memS xs a

/-- The first-sight merge loop of syncTagsTwoWay: walk the Zotero tags,
appending the hyphenated form of each tag whose normalized form is not in the
seen set, and growing the seen set. -/
def addZoteroTags (seen : List String) (acc : List String) : List String → List String
  | [] => acc
  | zt :: rest =>
    let n := normalizeTag zt
    if memS seen n then addZoteroTags seen acc rest
    else addZoteroTags (n :: seen) (acc ++ [hyphenate zt]) rest

/-- syncTagsTwoWay, branch with no last-synced baseline: start from the
frontmatter tags and add the Zotero tags not already present. -/
def mergeFirstSight (fmTags zoteroTags : List String) : List String :=
  addZoteroTags (fmTags.map normalizeTag) fmTags zoteroTags

/-- The three-way merge loop of syncTagsTwoWay: a Zotero tag is appended when
its normalized form is neither in the last-synced baseline nor in the seen
set of the accumulated result. -/
def addNewZoteroTags (lastNorm : List String) (seen : List String) (acc : List String) :
    List String → List String
  | [] => acc
  | zt :: rest =>
    let n := normalizeTag zt
    if !memS lastNorm n && !memS seen n then
      addNewZoteroTags lastNorm (n :: seen) (acc ++ [hyphenate zt]) rest
    else addNewZoteroTags lastNorm seen acc rest

/-- syncTagsTwoWay, branch with a last-synced baseline: drop the frontmatter
tags whose normalized form the remote removed since the last cycle, then add
the remote tags that are new since the last cycle. -/
def mergeWithBaseline (fmTags zoteroTags lastSynced : List String) : List String :=
  let zoteroNorm := zoteroTags.map normalizeTag
  let removedInZotero := (lastSynced.map normalizeTag).filter (fun n => !memS zoteroNorm n)
  let merged := fmTags.filter (fun t => !memS removedInZotero (normalizeTag t))
  addNewZoteroTags (lastSynced.map normalizeTag) (merged.map normalizeTag) merged zoteroTags

/-- SyncManager.pushTagsToZotero: no push when the merged tags equal the
Zotero tags; otherwise the pushed payload is the merged tags in remote
formatting followed by the sync tag. -/
def pushTagsToZotero (merged zoteroTags : List String) (syncTag : String) :
    Option (List String) :=
  if tagsEqual merged zoteroTags then none
  else some (merged.map dehyphenate ++ [syncTag])

/-- Result of one run of syncTagsTwoWay: the merged tag list returned to the
caller, the pushed payload when a push was attempted, and the new value stored
as the last-synced baseline for the item. -/
structure TagSyncOut where
  merged : List String
  push : Option (List String)
  newLastSynced : List String
deriving DecidableEq

/-- SyncManager.syncTagsTwoWay as a pure function of the sync tag, the raw
item tags, the existing document content and the stored last-synced baseline. -/
def syncTagsTwoWayM (syncTag : String) (itemTags : List String)
    (existingContent : Option String) (lastSynced : Option (List String)) : TagSyncOut :=
  let zoteroTags := itemTags.filter (fun t => !(t == syncTag))
  match existingContent with
  | none => ⟨zoteroTags, none, zoteroTags.map hyphenate⟩
  | some content =>
    let fmTags := parseFrontmatterTags content
    match lastSynced with
    | none =>
      let merged := mergeFirstSight fmTags zoteroTags
      ⟨merged, pushTagsToZotero merged zoteroTags syncTag, merged⟩
    | some ls =>
      let merged := mergeWithBaseline fmTags zoteroTags ls
      ⟨merged, pushTagsToZotero merged zoteroTags syncTag, merged⟩

/-- Outcome of ZoteroApiClient.patchItemTags: a transport-level response with a
status code, or a raised request error carrying a message (409 version
conflicts and 403 permission errors arrive this way). -/
inductive PushResponse where
  | status (code : Nat)
  | failed (msg : String)
deriving DecidableEq

/-- ZoteroApiClient.patchItemTags: true only for a 200 or 204 response; every
raised request error, including 409 conflicts and 403 permission errors, is
caught inside the method and reported as false, never rethrown. -/
def patchItemTags : PushResponse → Bool
  | .status code => code == 204 || code == 200
  | .failed _ => false

/-- Association-list lookup, modelling a string-keyed record. -/
def lookupA {α : Type} : List (String × α) → String → Option α
  | [], _ => none
  | (k, v) :: rest, key => if k == key then some v else lookupA rest key

/-- Association-list update, modelling assignment to a string-keyed record. -/
def insertA {α : Type} : List (String × α) → String → α → List (String × α)
  | [], key, v => [(key, v)]
  | (k, w) :: rest, key, v =>
    if k == key then (key, v) :: rest else (k, w) :: insertA rest key v

/-- VersionTracker.isItemChanged: true when no version is stored for the key
or the stored version is below the new one. -/
def isItemChanged (itemVersions : List (String × Nat)) (itemKey : String)
    (newVersion : Nat) : Bool :=
  match lookupA itemVersions itemKey with
  | none => true
  | some stored => stored < newVersion

/-- SyncManager.hasMissingImageAnnotations: with a local Zotero cache
configured for this host, a document still holding an area-highlight
placeholder needs reprocessing.  The hostname lookup into the cache directory
map is abstracted to the Boolean that it produces. -/
def hasMissingImageAnn (hasLocalCache : Bool) (content : String) : Bool :=
  hasLocalCache && containsSubstr content "[Area highlight"

/-- SyncManager.hasLocalTagChanges: with a stored baseline, the frontmatter
tags of the document no longer equal it; without a baseline, false. -/
def hasLocalTagChanges (lastSyncedTags : List (String × List String))
    (itemKey : String) (content : String) : Bool :=
  match lookupA lastSyncedTags itemKey with
  | none => false
  | some ls => !tagsEqual (parseFrontmatterTags content) ls

/-- A remote record as the sync loop sees it. -/
structure ZItem where
  key : String
  version : Nat
  itemType : String
  tags : List String
deriving DecidableEq

/-- The skip decision of the syncAll loop: a record is skipped only when its
version is unchanged, its document exists, and neither side condition
(missing annotation images, local tag drift) holds. -/
def skipItem (itemVersions : List (String × Nat))
    (lastSyncedTags : List (String × List String)) (hasLocalCache : Bool)
    (item : ZItem) (existing : Option String) : Bool :=
  match existing with
  | none => false
  | some content =>
    if !isItemChanged itemVersions item.key item.version then
      !hasMissingImageAnn hasLocalCache content
        && !hasLocalTagChanges lastSyncedTags item.key content
    else false

/-- The SyncResult record returned by syncAll and syncSingleItem. -/
structure SyncResult where
  created : Nat
  updated : Nat
  skipped : Nat
  errors : List String
deriving DecidableEq

/-- The settings fields the sync engine reads and writes.  The per-host local
cache lookup is abstracted to the Boolean hasLocalCache. -/
structure Settings where
  userId : String
  syncTag : String
  outputFolder : String
  preserveUserContent : Bool
  hasLocalCache : Bool
  lastSyncVersion : Nat
  itemVersions : List (String × Nat)
  itemFilenames : List (String × String)
  lastSyncedTags : List (String × List String)
deriving DecidableEq

/-- The mutable state of a SyncManager: its settings (persisted through
saveSettings), the vault as a path-to-content map, and the single-flight
flag. -/
structure SyncSt where
  settings : Settings
  vault : List (String × String)
  isSyncing : Bool
deriving DecidableEq

/-- External collaborators of one cycle: the remote fetch (with an optional
cycle-level failure), per-item build and write failure injection, the
renderer, and filename generation.  The pushOutcome field carries the remote
response to a tag push; the source discards it, so no definition below reads
it. -/
structure Env where
  fetchFail : Option String
  fetch : Option Nat → List ZItem × Nat
  fetchItem : String → Option ZItem
  genFilename : ZItem → String
  render : ZItem → List String → String
  renderPreserve : ZItem → String → String → String
  buildFail : String → Option String
  writeFail : String → Option String
  pushOutcome : String → PushResponse

/-- How one record fared inside the loop. -/
inductive ItemOut where
  | created
  | updated
  | skipped
  | errored (msg : String)
deriving DecidableEq

/-- The stored filename for an item, generating and storing one when absent
(syncAll and syncSingleItem share this step). -/
def resolveFilename (env : Env) (s : Settings) (item : ZItem) : String × Settings :=
  match lookupA s.itemFilenames item.key with
  | some f => (f, s)
  | none =>
    let f := env.genFilename item
    (f, { s with itemFilenames := insertA s.itemFilenames item.key f })

/-- The vault path of an item under given settings. -/
def itemPath (s : Settings) (filename : String) : String :=
  s.outputFolder ++ "/" ++ filename ++ ".md"

/-- The body of the per-item try block of syncAll: resolve the filename, skip
or process, run the two-way tag merge, render, write, and record the version.
Returns the new state, the outcome, and the tag pushes attempted. -/
def processItem (env : Env) (st : SyncSt) (item : ZItem) :
    SyncSt × ItemOut × List (String × List String) :=
  let filename := (resolveFilename env st.settings item).1
  let s1 := (resolveFilename env st.settings item).2
  let path := itemPath s1 filename
  let existing := lookupA st.vault path
  let st1 : SyncSt := { st with settings := s1 }
  if skipItem s1.itemVersions s1.lastSyncedTags s1.hasLocalCache item existing then
    (st1, .skipped, [])
  else
    match env.buildFail item.key with
    | some msg =>
      (st1, .errored ("Error processing item " ++ item.key ++ ": " ++ msg), [])
    | none =>
      let tout := syncTagsTwoWayM s1.syncTag item.tags existing (lookupA s1.lastSyncedTags item.key)
      let s2 := { s1 with lastSyncedTags := insertA s1.lastSyncedTags item.key tout.newLastSynced }
      let st2 : SyncSt := { st1 with settings := s2 }
      let pushes := match tout.push with
        | none => []
        | some p => [(item.key, p)]
      let content := env.render item (tout.merged ++ [s1.syncTag])
      match env.writeFail item.key with
      | some msg =>
        (st2, .errored ("Error processing item " ++ item.key ++ ": " ++ msg), pushes)
      | none =>
        match existing with
        | some oldContent =>
          let final := if s2.preserveUserContent
            then env.renderPreserve item oldContent content else content
          ({ st2 with
              vault := insertA st2.vault path final,
              settings := { s2 with itemVersions := insertA s2.itemVersions item.key item.version } },
            .updated, pushes)
        | none =>
          ({ st2 with
              vault := insertA st2.vault path content,
              settings := { s2 with itemVersions := insertA s2.itemVersions item.key item.version } },
            .created, pushes)

/-- Add one item outcome to the running totals. -/
def tally (r : SyncResult) : ItemOut → SyncResult
  | .created => { r with created := r.created + 1 }
  | .updated => { r with updated := r.updated + 1 }
  | .skipped => { r with skipped := r.skipped + 1 }
  | .errored m => { r with errors := r.errors ++ [m] }

/-- The per-item loop of syncAll: every item is processed in delivery order,
each through its own try block, with errors appended and the cycle always
continuing. -/
def runItems (env : Env) : List ZItem → SyncSt → SyncResult →
    List (String × List String) → SyncResult × SyncSt × List (String × List String)
  | [], st, r, ps => (r, st, ps)
  | item :: rest, st, r, ps =>
    let pr := processItem env st item
    runItems env rest pr.1 (tally r pr.2.1) (ps ++ pr.2.2)

/-- Top-level filter of syncAll: attachments, notes and annotation records
are excluded from processing. -/
def isTopLevel (i : ZItem) : Bool :=
  !(i.itemType == "attachment") && !(i.itemType == "note")
    && !(i.itemType == "annotation")

/-- SyncManager.syncAll as a function of the environment and the state.  The
third component of the result collects the tag pushes attempted during the
cycle. -/
def syncAll (env : Env) (st : SyncSt) :
    SyncResult × SyncSt × List (String × List String) :=
  if st.isSyncing then
    (⟨0, 0, 0, ["Sync already in progress"]⟩, st, [])
  else
    let st0 : SyncSt := { st with isSyncing := true }
    if st0.settings.userId == "" then
      (⟨0, 0, 0, ["Sync failed: User ID is required. Configure it in settings."]⟩,
        { st0 with isSyncing := false }, [])
    else
      match env.fetchFail with
      | some msg =>
        (⟨0, 0, 0, ["Sync failed: " ++ msg]⟩, { st0 with isSyncing := false }, [])
      | none =>
        let sinceVersion := st0.settings.lastSyncVersion
        let fetched := env.fetch (if sinceVersion > 0 then some sinceVersion else none)
        if fetched.1.length == 0 && sinceVersion > 0 then
          (⟨0, 0, 0, []⟩, { st0 with isSyncing := false }, [])
        else
          let res := runItems env (fetched.1.filter isTopLevel) st0 ⟨0, 0, 0, []⟩ []
          let st1 := res.2.1
          let st2 := if fetched.2 > 0
            then { st1 with settings := { st1.settings with lastSyncVersion := fetched.2 } }
            else st1
          (res.1, { st2 with isSyncing := false }, res.2.2)

/-- SyncManager.syncSingleItem: fetch one record by key and run the same
merge, render, write and version bookkeeping, without the skip check and
without touching the library version.  Its single catch block wraps the whole
body, so any failure surfaces as one cycle-level error message. -/
def syncSingleItem (env : Env) (st : SyncSt) (itemKey : String) :
    SyncResult × SyncSt × List (String × List String) :=
  if st.isSyncing then
    (⟨0, 0, 0, ["Sync already in progress"]⟩, st, [])
  else
    let st0 : SyncSt := { st with isSyncing := true }
    if st0.settings.userId == "" then
      (⟨0, 0, 0, ["Sync failed: User ID is required."]⟩,
        { st0 with isSyncing := false }, [])
    else
      match env.fetchFail with
      | some msg =>
        (⟨0, 0, 0, ["Sync failed: " ++ msg]⟩, { st0 with isSyncing := false }, [])
      | none =>
        match env.fetchItem itemKey with
        | none =>
          (⟨0, 0, 0, ["Item " ++ itemKey ++ " not found in Zotero."]⟩,
            { st0 with isSyncing := false }, [])
        | some item =>
          let filename := (resolveFilename env st0.settings item).1
          let s1 := (resolveFilename env st0.settings item).2
          let st1 : SyncSt := { st0 with settings := s1 }
          match env.buildFail item.key with
          | some msg =>
            (⟨0, 0, 0, ["Sync failed: " ++ msg]⟩, { st1 with isSyncing := false }, [])
          | none =>
            let path := itemPath s1 filename
            let existing := lookupA st1.vault path
            let tout := syncTagsTwoWayM s1.syncTag item.tags existing
              (lookupA s1.lastSyncedTags item.key)
            let s2 := { s1 with
              lastSyncedTags := insertA s1.lastSyncedTags item.key tout.newLastSynced }
            let st2 : SyncSt := { st1 with settings := s2 }
            let pushes := match tout.push with
              | none => []
              | some p => [(item.key, p)]
            let content := env.render item (tout.merged ++ [s1.syncTag])
            match env.writeFail item.key with
            | some msg =>
              (⟨0, 0, 0, ["Sync failed: " ++ msg]⟩, { st2 with isSyncing := false }, pushes)
            | none =>
              match existing with
              | some oldContent =>
                let final := if s2.preserveUserContent
                  then env.renderPreserve item oldContent content else content
                (⟨0, 1, 0, []⟩,
                  { st2 with
                    vault := insertA st2.vault path final,
                    settings := { s2 with
                      itemVersions := insertA s2.itemVersions item.key item.version },
                    isSyncing := false }, pushes)
              | none =>
                (⟨1, 0, 0, []⟩,
                  { st2 with
                    vault := insertA st2.vault path content,
                    settings := { s2 with
                      itemVersions := insertA s2.itemVersions item.key item.version },
                    isSyncing := false }, pushes)

/-- Written from the words of the spec: add every remote tag that is not
already present in the accumulated result, comparing by normalized form and
appending the added tags in document-side formatting. -/
def specAddRemote (acc : List String) : List String → List String
  | [] => acc
  | r :: rest =>
    if memS (acc.map normalizeTag) (normalizeTag r) then specAddRemote acc rest
    else specAddRemote (acc ++ [hyphenate r]) rest

/-- Written from the words of the spec, first reconciliation: start from the
document tags; add every remote tag not already present by normalized form;
nothing is removed. -/
def specMergeFirstSight (remoteTags documentTags : List String) : List String :=
  specAddRemote documentTags remoteTags

/-- Written from the words of the spec, reconciliation with a baseline:
removedInRemote is the normalized difference of the last reconciled tags and
the remote tags; the result starts from the document tags minus
removedInRemote, then adds every tag of the remote tags minus the last
reconciled tags that is not already present. -/
def specMergeWithBaseline (remoteTags documentTags lastTags : List String) : List String :=
  let lastNorm := lastTags.map normalizeTag
  let remoteNorm := remoteTags.map normalizeTag
  let removedInRemote := lastNorm.filter (fun n => !memS remoteNorm n)
  let start := documentTags.filter (fun t => !memS removedInRemote (normalizeTag t))
  specAddRemote start (remoteTags.filter (fun r => !memS lastNorm (normalizeTag r)))

/-- A trivial environment for concrete runs: empty remote, no failures,
renderer and filename generation with fixed simple outputs. -/
def env0 : Env where
  fetchFail := none
  fetch := fun _ => ([], 0)
  fetchItem := fun _ => none
  genFilename := fun i => i.key
  render := fun _ _ => "rendered"
  renderPreserve := fun _ _ c => c
  buildFail := fun _ => none
  writeFail := fun _ => none
  pushOutcome := fun _ => .status 204

/-- Document content whose frontmatter lists the tags a, b, c. -/
def contentABC : String := "---\ntags: \n- a\n- b\n- c\n---\nbody"

/-- Document content whose frontmatter lists the tags b, c. -/
def contentBC : String := "---\ntags: \n- b\n- c\n---\nbody"

/-- Document content whose frontmatter lists the tags a, c. -/
def contentAC : String := "---\ntags: \n- a\n- c\n---\nbody"

/-- A record used by the concrete scenarios. -/
def itemK : ZItem := ⟨"K", 3, "journalArticle", ["a", "obsidian"]⟩

/-- A second, fresh record used by the cycle-continuation scenario. -/
def itemL : ZItem := ⟨"L", 2, "journalArticle", ["x", "obsidian"]⟩

/-- Settings of the write-failure scenario: item K has stored version 1,
stored filename K, and tag baseline a, b. -/
def settings6 : Settings where
  userId := "u"
  syncTag := "obsidian"
  outputFolder := "Z"
  preserveUserContent := false
  hasLocalCache := false
  lastSyncVersion := 0
  itemVersions := [("K", 1)]
  itemFilenames := [("K", "K")]
  lastSyncedTags := [("K", ["a", "b"])]

/-- State of the write-failure scenario: the document of K exists with
frontmatter tags a, b, c. -/
def st6 : SyncSt where
  settings := settings6
  vault := [("Z/K.md", contentABC)]
  isSyncing := false

/-- Environment of the write-failure scenario: the fetch delivers K then L,
and the write of K fails. -/
def env6 : Env where
  fetchFail := none
  fetch := fun _ => ([itemK, itemL], 7)
  fetchItem := fun _ => none
  genFilename := fun i => i.key
  render := fun _ _ => "rendered"
  renderPreserve := fun _ _ c => c
  buildFail := fun _ => none
  writeFail := fun k => if k == "K" then some "disk full" else none
  pushOutcome := fun _ => .failed "409"

/-- State used by the steady-state scenario: nothing to do, cursor at 5. -/
def st7 : SyncSt where
  settings :=
    { settings6 with
      lastSyncVersion := 5
      itemVersions := []
      itemFilenames := []
      lastSyncedTags := [] }
  vault := []
  isSyncing := false

/-- Environment of the steady-state scenario: the incremental fetch reports
no changes. -/
def env7 : Env where
  fetchFail := none
  fetch := fun _ => ([], 5)
  fetchItem := fun _ => none
  genFilename := fun i => i.key
  render := fun _ _ => "rendered"
  renderPreserve := fun _ _ c => c
  buildFail := fun _ => none
  writeFail := fun _ => none
  pushOutcome := fun _ => .status 204

/-- A state whose single-flight flag is engaged, for the concurrent-trigger
scenario. -/
def stBusy : SyncSt where
  settings := settings6
  vault := []
  isSyncing := true

/-- The existing document content processItem reads for an item: the vault
entry at the path derived from the stored or generated filename. -/
def existingOf (env : Env) (st : SyncSt) (item : ZItem) : Option String :=
  lookupA st.vault
    (itemPath (resolveFilename env st.settings item).2 (resolveFilename env st.settings item).1)

theorem charEq_of_toNat_eq {a b : Char} (h : a.toNat = b.toNat) : a = b :=
  Char.eq_of_val_eq (UInt32.ext h)

theorem lexLe_cons_iff (a b : Char) (as bs : List Char) :
    lexLe (a :: as) (b :: bs) = true ↔
      a.toNat < b.toNat ∨ (a.toNat = b.toNat ∧ lexLe as bs = true) := by
  simp only [lexLe]
  split_ifs with h1 h2
  · simp [h1]
  · constructor
    · intro h
      exact absurd h (by simp)
    · rintro (h | ⟨he, -⟩)
      · exact absurd h h1
      · omega
  · have he : a.toNat = b.toNat := by omega
    rw [he]
    simp

theorem lexLe_total : ∀ as bs : List Char, lexLe as bs = true ∨ lexLe bs as = true
  | [], _ => Or.inl rfl
  | _ :: _, [] => Or.inr rfl
  | a :: as, b :: bs => by
    rcases Nat.lt_trichotomy a.toNat b.toNat with h | h | h
    · exact Or.inl ((lexLe_cons_iff a b as bs).mpr (Or.inl h))
    · rcases lexLe_total as bs with ih | ih
      · exact Or.inl ((lexLe_cons_iff a b as bs).mpr (Or.inr ⟨h, ih⟩))
      · exact Or.inr ((lexLe_cons_iff b a bs as).mpr (Or.inr ⟨h.symm, ih⟩))
    · exact Or.inr ((lexLe_cons_iff b a bs as).mpr (Or.inl h))

theorem lexLe_trans : ∀ as bs cs : List Char,
    lexLe as bs = true → lexLe bs cs = true → lexLe as cs = true
  | [], _, _, _, _ => rfl
  | _ :: _, [], _, h1, _ => absurd h1 (by simp [lexLe])
  | _ :: _, _ :: _, [], _, h2 => absurd h2 (by simp [lexLe])
  | a :: as, b :: bs, c :: cs, h1, h2 => by
    rw [lexLe_cons_iff] at h1 h2 ⊢
    rcases h1 with h1 | ⟨e1, l1⟩
    · rcases h2 with h2 | ⟨e2, l2⟩
      · exact Or.inl (Nat.lt_trans h1 h2)
      · exact Or.inl (by omega)
    · rcases h2 with h2 | ⟨e2, l2⟩
      · exact Or.inl (by omega)
      · exact Or.inr ⟨by omega, lexLe_trans as bs cs l1 l2⟩

theorem lexLe_antisymm : ∀ as bs : List Char,
    lexLe as bs = true → lexLe bs as = true → as = bs
  | [], [], _, _ => rfl
  | [], _ :: _, _, h2 => absurd h2 (by simp [lexLe])
  | _ :: _, [], h1, _ => absurd h1 (by simp [lexLe])
  | a :: as, b :: bs, h1, h2 => by
    rw [lexLe_cons_iff] at h1 h2
    rcases h1 with h1 | ⟨e1, l1⟩
    · rcases h2 with h2 | ⟨e2, -⟩
      · exact (show False by omega).elim
      · exact (show False by omega).elim
    · rcases h2 with h2 | ⟨e2, l2⟩
      · exact (show False by omega).elim
      · rw [charEq_of_toNat_eq e1, lexLe_antisymm as bs l1 l2]

instance : IsTotal String strLe :=
  ⟨fun a b => lexLe_total a.data b.data⟩

instance : IsTrans String strLe :=
  ⟨fun a b c => lexLe_trans a.data b.data c.data⟩

instance : IsAntisymm String strLe := by
  refine ⟨fun a b h1 h2 => ?_⟩
  cases a with
  | mk da =>
    cases b with
    | mk db =>
      exact congrArg String.mk (lexLe_antisymm da db h1 h2)

theorem tagsEqual_iff_perm (a b : List String) :
    tagsEqual a b = true ↔ (a.map normalizeTag).Perm (b.map normalizeTag) := by
  unfold tagsEqual
  simp only [Bool.and_eq_true, beq_iff_eq]
  constructor
  · rintro ⟨-, hsort⟩
    have p1 := List.perm_insertionSort strLe (a.map normalizeTag)
    have p2 := List.perm_insertionSort strLe (b.map normalizeTag)
    rw [hsort] at p1
    exact p1.symm.trans p2
  · intro hp
    refine ⟨?_, ?_⟩
    · simpa using hp.length_eq
    · exact List.eq_of_perm_of_sorted
        ((List.perm_insertionSort strLe _).trans
          (hp.trans (List.perm_insertionSort strLe _).symm))
        (List.sorted_insertionSort strLe _)
        (List.sorted_insertionSort strLe _)

theorem tagsEqual_same (a : List String) : tagsEqual a a = true :=
  (tagsEqual_iff_perm a a).mpr (List.Perm.refl _)

theorem memS_append (l1 l2 : List String) (a : String) :
    memS (l1 ++ l2) a = (memS l1 a || memS l2 a) := by
  induction l1 with
  | nil => simp [memS]
  | cons x xs ih => simp [memS, ih, Bool.or_assoc]

theorem addZoteroTags_eq_spec :
    ∀ (rs seen acc : List String),
      (∀ r ∈ rs, normalizeTag (hyphenate r) = normalizeTag r) →
      (∀ n, memS seen n = memS (acc.map normalizeTag) n) →
      addZoteroTags seen acc rs = specAddRemote acc rs
  | [], _, _, _, _ => rfl
  | r :: rest, seen, acc, hcanon, hinv => by
    simp only [addZoteroTags, specAddRemote]
    rw [hinv (normalizeTag r)]
    cases hmem : memS (acc.map normalizeTag) (normalizeTag r) with
    | true =>
      simp only [if_pos]
      exact addZoteroTags_eq_spec rest seen acc
        (fun x hx => hcanon x (List.mem_cons_of_mem r hx)) hinv
    | false =>
      simp only [if_neg, Bool.false_eq_true, not_false_eq_true]
      refine addZoteroTags_eq_spec rest (normalizeTag r :: seen) (acc ++ [hyphenate r])
        (fun x hx => hcanon x (List.mem_cons_of_mem r hx)) ?_
      intro n
      have hr := hcanon r (List.mem_cons_self r rest)
      simp [memS, hinv n, memS_append, hr, Bool.or_comm]

theorem addNewZoteroTags_eq_spec :
    ∀ (rs lastNorm seen acc : List String),
      (∀ r ∈ rs, normalizeTag (hyphenate r) = normalizeTag r) →
      (∀ n, memS seen n = memS (acc.map normalizeTag) n) →
      addNewZoteroTags lastNorm seen acc rs =
        specAddRemote acc (rs.filter (fun r => !memS lastNorm (normalizeTag r)))
  | [], _, _, _, _, _ => rfl
  | r :: rest, lastNorm, seen, acc, hcanon, hinv => by
    simp only [addNewZoteroTags, List.filter_cons]
    cases hlast : memS lastNorm (normalizeTag r) with
    | true =>
      simp only [hlast, Bool.not_true, Bool.false_and, Bool.false_eq_true, if_false]
      exact addNewZoteroTags_eq_spec rest lastNorm seen acc
        (fun x hx => hcanon x (List.mem_cons_of_mem r hx)) hinv
    | false =>
      simp only [hlast, Bool.not_false, Bool.true_and, if_true, specAddRemote]
      rw [hinv (normalizeTag r)]
      cases hmem : memS (acc.map normalizeTag) (normalizeTag r) with
      | true =>
        simp only [Bool.not_true, Bool.false_eq_true, if_false, if_pos]
        exact addNewZoteroTags_eq_spec rest lastNorm seen acc
          (fun x hx => hcanon x (List.mem_cons_of_mem r hx)) hinv
      | false =>
        simp only [Bool.not_false, if_true, Bool.false_eq_true, not_false_eq_true, if_neg]
        refine addNewZoteroTags_eq_spec rest lastNorm (normalizeTag r :: seen)
          (acc ++ [hyphenate r]) (fun x hx => hcanon x (List.mem_cons_of_mem r hx)) ?_
        intro n
        have hr := hcanon r (List.mem_cons_self r rest)
        simp [memS, hinv n, memS_append, hr, Bool.or_comm]

theorem lookupA_insertA_self {α : Type} (m : List (String × α)) (k : String) (v : α) :
    lookupA (insertA m k v) k = some v := by
  induction m with
  | nil => simp [insertA, lookupA]
  | cons hd rest ih =>
    obtain ⟨k1, v1⟩ := hd
    simp only [insertA]
    cases hk : k1 == k with
    | true => simp [lookupA]
    | false => simp [lookupA, hk, ih]

theorem lookupA_insertA_isSome {α : Type} (m : List (String × α)) (k p : String) (v : α)
    (h : (lookupA m p).isSome = true) : (lookupA (insertA m k v) p).isSome = true := by
  induction m with
  | nil => simp [lookupA] at h
  | cons hd rest ih =>
    obtain ⟨k1, v1⟩ := hd
    simp only [insertA]
    cases hk : k1 == k with
    | true =>
      simp only [lookupA] at h ⊢
      cases hp : k == p with
      | true => simp
      | false =>
        have hk1 : (k1 == p) = false := by
          have e1 : k1 = k := by simpa using hk
          rw [e1]; exact hp
        rw [hk1] at h
        simpa using h
    | false =>
      simp only [lookupA] at h ⊢
      cases hp : k1 == p with
      | true => simp
      | false =>
        rw [hp] at h
        simpa using ih h

theorem resolveFilename_userId (env : Env) (s : Settings) (item : ZItem) :
    (resolveFilename env s item).2.userId = s.userId := by
  unfold resolveFilename
  cases lookupA s.itemFilenames item.key <;> rfl

theorem resolveFilename_lastSyncVersion (env : Env) (s : Settings) (item : ZItem) :
    (resolveFilename env s item).2.lastSyncVersion = s.lastSyncVersion := by
  unfold resolveFilename
  cases lookupA s.itemFilenames item.key <;> rfl

theorem processItem_userId (env : Env) (st : SyncSt) (item : ZItem) :
    ((processItem env st item).1).settings.userId = st.settings.userId := by
  simp only [processItem]
  repeat' split
  all_goals exact resolveFilename_userId env st.settings item

theorem processItem_lastSyncVersion (env : Env) (st : SyncSt) (item : ZItem) :
    ((processItem env st item).1).settings.lastSyncVersion = st.settings.lastSyncVersion := by
  simp only [processItem]
  repeat' split
  all_goals exact resolveFilename_lastSyncVersion env st.settings item

theorem processItem_isSyncing (env : Env) (st : SyncSt) (item : ZItem) :
    ((processItem env st item).1).isSyncing = st.isSyncing := by
  simp only [processItem]
  repeat' split
  all_goals rfl

theorem processItem_vault_mono (env : Env) (st : SyncSt) (item : ZItem) (p : String)
    (h : (lookupA st.vault p).isSome = true) :
    (lookupA ((processItem env st item).1).vault p).isSome = true := by
  simp only [processItem]
  repeat' split
  all_goals first
    | exact h
    | exact lookupA_insertA_isSome _ _ _ _ h

theorem runItems_userId (env : Env) :
    ∀ (items : List ZItem) (st : SyncSt) (r : SyncResult) (ps : List (String × List String)),
      ((runItems env items st r ps).2.1).settings.userId = st.settings.userId
  | [], _, _, _ => rfl
  | item :: rest, st, r, ps => by
    simp only [runItems]
    rw [runItems_userId env rest]
    exact processItem_userId env st item

theorem runItems_lastSyncVersion (env : Env) :
    ∀ (items : List ZItem) (st : SyncSt) (r : SyncResult) (ps : List (String × List String)),
      ((runItems env items st r ps).2.1).settings.lastSyncVersion = st.settings.lastSyncVersion
  | [], _, _, _ => rfl
  | item :: rest, st, r, ps => by
    simp only [runItems]
    rw [runItems_lastSyncVersion env rest]
    exact processItem_lastSyncVersion env st item

theorem runItems_isSyncing (env : Env) :
    ∀ (items : List ZItem) (st : SyncSt) (r : SyncResult) (ps : List (String × List String)),
      ((runItems env items st r ps).2.1).isSyncing = st.isSyncing
  | [], _, _, _ => rfl
  | item :: rest, st, r, ps => by
    simp only [runItems]
    rw [runItems_isSyncing env rest]
    exact processItem_isSyncing env st item

theorem runItems_vault_mono (env : Env) :
    ∀ (items : List ZItem) (st : SyncSt) (r : SyncResult) (ps : List (String × List String))
      (p : String), (lookupA st.vault p).isSome = true →
      (lookupA ((runItems env items st r ps).2.1).vault p).isSome = true
  | [], _, _, _, _, h => h
  | item :: rest, st, r, ps, p, h => by
    simp only [runItems]
    exact runItems_vault_mono env rest _ _ _ p (processItem_vault_mono env st item p h)

theorem resolveFilename_syncTag (env : Env) (s : Settings) (item : ZItem) :
    (resolveFilename env s item).2.syncTag = s.syncTag := by
  unfold resolveFilename
  cases lookupA s.itemFilenames item.key <;> rfl

theorem resolveFilename_itemVersions (env : Env) (s : Settings) (item : ZItem) :
    (resolveFilename env s item).2.itemVersions = s.itemVersions := by
  unfold resolveFilename
  cases lookupA s.itemFilenames item.key <;> rfl

theorem resolveFilename_lastSyncedTags (env : Env) (s : Settings) (item : ZItem) :
    (resolveFilename env s item).2.lastSyncedTags = s.lastSyncedTags := by
  unfold resolveFilename
  cases lookupA s.itemFilenames item.key <;> rfl

theorem resolveFilename_hasLocalCache (env : Env) (s : Settings) (item : ZItem) :
    (resolveFilename env s item).2.hasLocalCache = s.hasLocalCache := by
  unfold resolveFilename
  cases lookupA s.itemFilenames item.key <;> rfl

theorem syncAll_isSyncing_false (env : Env) (st : SyncSt) (h : st.isSyncing = false) :
    ((syncAll env st).2.1).isSyncing = false := by
  unfold syncAll
  rw [h]
  simp only [Bool.false_eq_true, if_false]
  repeat' split
  all_goals rfl

theorem syncSingleItem_isSyncing_false (env : Env) (st : SyncSt) (itemKey : String)
    (h : st.isSyncing = false) :
    ((syncSingleItem env st itemKey).2.1).isSyncing = false := by
  unfold syncSingleItem
  rw [h]
  simp only [Bool.false_eq_true, if_false]
  repeat' split
  all_goals rfl

theorem syncAll_userId (env : Env) (st : SyncSt) :
    ((syncAll env st).2.1).settings.userId = st.settings.userId := by
  simp only [syncAll]
  repeat' split
  all_goals first
    | rfl
    | exact runItems_userId env _ _ _ _

theorem syncAll_vault_mono (env : Env) (st : SyncSt) (p : String)
    (h : (lookupA st.vault p).isSome = true) :
    (lookupA ((syncAll env st).2.1).vault p).isSome = true := by
  simp only [syncAll]
  repeat' split
  all_goals first
    | exact h
    | exact runItems_vault_mono env _ _ _ _ p h

theorem syncSingleItem_vault_mono (env : Env) (st : SyncSt) (itemKey p : String)
    (h : (lookupA st.vault p).isSome = true) :
    (lookupA ((syncSingleItem env st itemKey).2.1).vault p).isSome = true := by
  simp only [syncSingleItem]
  repeat' split
  all_goals first
    | exact h
    | exact lookupA_insertA_isSome _ _ _ _ h

/-- C5: the skip or process decision of a cycle follows a fixed priority:
a record is processed when no version baseline entry exists for its key, or
the stored baseline version is below the record version, or the local
document does not exist; only otherwise are the two side conditions (missing
annotation images with a local cache available, tag header drift against the
tag baseline) evaluated, and the record is skipped exactly when both are
false. -/
theorem spec2_C5 (itemVersions : List (String × Nat))
    (lastSyncedTags : List (String × List String)) (hasLocalCache : Bool)
    (item : ZItem) (existing : Option String) :
    (isItemChanged itemVersions item.key item.version = true ↔
      (lookupA itemVersions item.key = none ∨
        ∃ s, lookupA itemVersions item.key = some s ∧ s < item.version))
    ∧ (isItemChanged itemVersions item.key item.version = true →
        skipItem itemVersions lastSyncedTags hasLocalCache item existing = false)
    ∧ (existing = none →
        skipItem itemVersions lastSyncedTags hasLocalCache item existing = false)
    ∧ (∀ content, existing = some content →
        isItemChanged itemVersions item.key item.version = false →
        (skipItem itemVersions lastSyncedTags hasLocalCache item existing = true ↔
          (hasMissingImageAnn hasLocalCache content = false ∧
            hasLocalTagChanges lastSyncedTags item.key content = false))) := by
  refine ⟨?_, ?_, ?_, ?_⟩
  · unfold isItemChanged
    cases lookupA itemVersions item.key with
    | none => simp
    | some s => simp [decide_eq_true_iff]
  · intro h
    unfold skipItem
    cases existing with
    | none => rfl
    | some content => simp [h]
  · intro h
    subst h
    rfl
  · intro content hex hch
    subst hex
    simp [skipItem, hch]

/-- Witness for C5 at a concrete input: item K with unchanged version 3, an
existing document whose frontmatter tags a, c equal the stored tag baseline,
no local cache; the decision is Skip. -/
theorem spec2_C5_witness :
    skipItem [("K", 3)] [("K", ["a", "c"])] false itemK (some contentAC) = true :=
  ((spec2_C5 [("K", 3)] [("K", ["a", "c"])] false itemK (some contentAC)).2.2.2
    contentAC rfl (by decide)).mpr (by decide)

/-- C8: triggering a full cycle, or a single-record sync, while a cycle is
already running returns immediately with zero counts and the single message
that a sync is already in progress, and leaves the state (baseline stores
included) untouched. -/
theorem spec2_C8 (env : Env) (st : SyncSt) (itemKey : String)
    (h : st.isSyncing = true) :
    syncAll env st = (⟨0, 0, 0, ["Sync already in progress"]⟩, st, [])
    ∧ syncSingleItem env st itemKey = (⟨0, 0, 0, ["Sync already in progress"]⟩, st, []) := by
  constructor
  · unfold syncAll
    rw [h]
    simp
  · unfold syncSingleItem
    rw [h]
    simp

/-- Witness for C8 at a concrete busy state. -/
theorem spec2_C8_witness :
    syncAll env0 stBusy = (⟨0, 0, 0, ["Sync already in progress"]⟩, stBusy, [])
    ∧ syncSingleItem env0 stBusy "K" = (⟨0, 0, 0, ["Sync already in progress"]⟩, stBusy, []) :=
  spec2_C8 env0 stBusy "K" rfl

/-- C9: no operation of the engine deletes a local document: any document
present in the vault before a full cycle or a single-record sync is still
present afterwards, for every environment, including failing ones. -/
theorem spec2_C9 (env : Env) (st : SyncSt) (itemKey p : String)
    (h : (lookupA st.vault p).isSome = true) :
    (lookupA ((syncAll env st).2.1).vault p).isSome = true
    ∧ (lookupA ((syncSingleItem env st itemKey).2.1).vault p).isSome = true :=
  ⟨syncAll_vault_mono env st p h, syncSingleItem_vault_mono env st itemKey p h⟩

/-- Witness for C9: the document of K survives a concrete cycle and a
concrete single-record sync. -/
theorem spec2_C9_witness :
    (lookupA ((syncAll env6 st6).2.1).vault "Z/K.md").isSome = true
    ∧ (lookupA ((syncSingleItem env6 st6 "K").2.1).vault "Z/K.md").isSome = true :=
  spec2_C9 env6 st6 "K" "Z/K.md" (by decide)

/-- C10: both sync operations reset the single-flight flag on every return
path, for every environment (configuration failures, fetch failures, item
failures included); a finished cycle never leaves the guard engaged. -/
theorem spec2_C10 (env : Env) (st : SyncSt) (itemKey : String)
    (h : st.isSyncing = false) :
    ((syncAll env st).2.1).isSyncing = false
    ∧ ((syncSingleItem env st itemKey).2.1).isSyncing = false :=
  ⟨syncAll_isSyncing_false env st h, syncSingleItem_isSyncing_false env st itemKey h⟩

/-- Witness for C10 at a concrete idle state, under an environment that makes
the cycle fail at the write step. -/
theorem spec2_C10_witness :
    ((syncAll env6 st6).2.1).isSyncing = false
    ∧ ((syncSingleItem env6 st6 "K").2.1).isSyncing = false :=
  spec2_C10 env6 st6 "K" rfl

theorem addZoteroTags_ext :
    ∀ (rs seen acc : List String), ∃ added, addZoteroTags seen acc rs = acc ++ added
  | [], _, acc => ⟨[], (List.append_nil acc).symm⟩
  | r :: rest, seen, acc => by
    simp only [addZoteroTags]
    cases hmem : memS seen (normalizeTag r) with
    | true => exact addZoteroTags_ext rest seen acc
    | false =>
      simp only [Bool.false_eq_true, if_false]
      obtain ⟨added, ha⟩ := addZoteroTags_ext rest (normalizeTag r :: seen) (acc ++ [hyphenate r])
      exact ⟨[hyphenate r] ++ added, by rw [ha, List.append_assoc]⟩

/-- C3: a push to the remote is attempted exactly when the merged tag set and
the remote tag set differ under normalization (for duplicate-free normalized
lists this is inequality of the normalized sets), the pushed payload is
exactly the merged tags in remote formatting followed by the single sync tag,
and the push performed by the two-way tag sync is exactly this
pushTagsToZotero on its merged result and the remote tags. -/
theorem spec2_C3 (merged zoteroTags : List String) (syncTag : String)
    (hm : (merged.map normalizeTag).Nodup) (hz : (zoteroTags.map normalizeTag).Nodup) :
    ((pushTagsToZotero merged zoteroTags syncTag).isSome = true ↔
      (merged.map normalizeTag).toFinset ≠ (zoteroTags.map normalizeTag).toFinset)
    ∧ (∀ p, pushTagsToZotero merged zoteroTags syncTag = some p →
        p = merged.map dehyphenate ++ [syncTag])
    ∧ (∀ (tag : String) (itemTags : List String) (existingContent : Option String)
        (lastSynced : Option (List String)),
        (syncTagsTwoWayM tag itemTags existingContent lastSynced).push =
          pushTagsToZotero (syncTagsTwoWayM tag itemTags existingContent lastSynced).merged
            (itemTags.filter (fun t => !(t == tag))) tag) := by
  refine ⟨?_, ?_, ?_⟩
  · unfold pushTagsToZotero
    cases he : tagsEqual merged zoteroTags with
    | true =>
      have hperm := (tagsEqual_iff_perm merged zoteroTags).mp he
      simp only [if_pos, Option.isSome_none, Bool.false_eq_true, false_iff, ne_eq,
        not_not]
      exact List.toFinset_eq_of_perm _ _ hperm
    | false =>
      simp only [Bool.false_eq_true, if_neg, Option.isSome_some, true_iff, ne_eq,
        not_false_eq_true]
      intro heq
      have hperm := List.perm_of_nodup_nodup_toFinset_eq hm hz heq
      have := (tagsEqual_iff_perm merged zoteroTags).mpr hperm
      rw [he] at this
      exact absurd this (by simp)
  · intro p hp
    unfold pushTagsToZotero at hp
    cases he : tagsEqual merged zoteroTags with
    | true => rw [he] at hp; exact absurd hp (by simp)
    | false =>
      rw [he] at hp
      simp only [Bool.false_eq_true, if_neg, Option.some.injEq, not_false_eq_true] at hp
      exact hp.symm
  · intro tag itemTags existingContent lastSynced
    unfold syncTagsTwoWayM
    cases existingContent with
    | none =>
      simp only
      rw [pushTagsToZotero, if_pos (tagsEqual_same _)]
    | some content =>
      cases lastSynced with
      | none => rfl
      | some ls => rfl

/-- Witness for C3 at the merged set a, c against the remote set a. -/
theorem spec2_C3_witness :
    ((pushTagsToZotero ["a", "c"] ["a"] "obsidian").isSome = true ↔
      ((["a", "c"].map normalizeTag).toFinset ≠ (["a"].map normalizeTag).toFinset))
    ∧ (∀ p, pushTagsToZotero ["a", "c"] ["a"] "obsidian" = some p →
        p = ["a", "c"].map dehyphenate ++ ["obsidian"])
    ∧ (∀ (tag : String) (itemTags : List String) (existingContent : Option String)
        (lastSynced : Option (List String)),
        (syncTagsTwoWayM tag itemTags existingContent lastSynced).push =
          pushTagsToZotero (syncTagsTwoWayM tag itemTags existingContent lastSynced).merged
            (itemTags.filter (fun t => !(t == tag))) tag) :=
  spec2_C3 ["a", "c"] ["a"] "obsidian" (by decide) (by decide)

/-- C1: with a last-reconciled baseline present, the merge of the source
equals the merge written from the words of the spec: start from the document
tags minus the normalized difference of the baseline and the remote tags,
then add every remote tag new since the baseline and not already present.
The proviso asks that remote tags keep their normalized form under
document-side formatting, which holds for every tag without repeated inner
whitespace.  In particular, for baseline a, b, remote a and document tags
a, b, c, the two-way sync merges to a, c and pushes a, c plus the sync tag. -/
theorem spec2_C1 :
    (∀ remoteTags docTags lastTags : List String,
        (∀ r ∈ remoteTags, normalizeTag (hyphenate r) = normalizeTag r) →
        mergeWithBaseline docTags remoteTags lastTags =
          specMergeWithBaseline remoteTags docTags lastTags)
    ∧ (syncTagsTwoWayM "obsidian" ["a"] (some contentABC) (some ["a", "b"])).merged
        = ["a", "c"]
    ∧ (syncTagsTwoWayM "obsidian" ["a"] (some contentABC) (some ["a", "b"])).push
        = some ["a", "c", "obsidian"] := by
  refine ⟨?_, by decide, by decide⟩
  intro remoteTags docTags lastTags hcanon
  simp only [mergeWithBaseline, specMergeWithBaseline]
  exact addNewZoteroTags_eq_spec remoteTags _ _ _ hcanon (fun n => rfl)

/-- Witness for C1: the general refinement applied at the concrete lists of
the scenario. -/
theorem spec2_C1_witness :
    mergeWithBaseline ["a", "b", "c"] ["a"] ["a", "b"] =
      specMergeWithBaseline ["a"] ["a", "b", "c"] ["a", "b"] :=
  spec2_C1.1 ["a"] ["a", "b", "c"] ["a", "b"] (by decide)

/-- C2: with no last-reconciled baseline, the merge of the source equals the
merge written from the words of the spec: start from the document tags and
append every remote tag not already present by normalized form; the document
tags are kept as a prefix, so nothing is removed.  In particular, for
document tags b, c and remote a, b, the merge is b, c, a and the push carries
b, c, a plus the sync tag. -/
theorem spec2_C2 :
    (∀ remoteTags docTags : List String,
        (∀ r ∈ remoteTags, normalizeTag (hyphenate r) = normalizeTag r) →
        mergeFirstSight docTags remoteTags = specMergeFirstSight remoteTags docTags
          ∧ ∃ added, mergeFirstSight docTags remoteTags = docTags ++ added)
    ∧ (syncTagsTwoWayM "obsidian" ["a", "b"] (some contentBC) none).merged = ["b", "c", "a"]
    ∧ (syncTagsTwoWayM "obsidian" ["a", "b"] (some contentBC) none).push
        = some ["b", "c", "a", "obsidian"] := by
  refine ⟨?_, by decide, by decide⟩
  intro remoteTags docTags hcanon
  constructor
  · exact addZoteroTags_eq_spec remoteTags _ _ hcanon (fun n => rfl)
  · exact addZoteroTags_ext remoteTags _ _

/-- Witness for C2: the general statement applied at the concrete lists of
the scenario. -/
theorem spec2_C2_witness :
    mergeFirstSight ["b", "c"] ["a", "b"] = specMergeFirstSight ["a", "b"] ["b", "c"]
    ∧ ∃ added, mergeFirstSight ["b", "c"] ["a", "b"] = ["b", "c"] ++ added :=
  spec2_C2.1 ["a", "b"] ["b", "c"] (by decide)

/-- C4 evaluated at the failing scenario.  A rejected push is indeed
non-fatal, and the merge result is still applied locally: patchItemTags maps
a 409 or 403 rejection to false instead of raising, and the merge outcome is
independent of the push response.  But the stored tag baseline advances to
the merged set in the same step and the document is rewritten with the merged
tags, so on the next cycle the record is skipped (version unchanged, tags
equal to baseline): no push is re-attempted.  Even a forced re-merge then
computes pushToRemote = false and drops the local-only tag c, because the
advanced baseline makes c look deleted on the remote. -/
theorem spec2_C4_thm :
    patchItemTags (.failed "409 Conflict") = false
    ∧ (syncTagsTwoWayM "obsidian" ["a", "obsidian"] (some contentABC) (some ["a", "b"])).merged
        = ["a", "c"]
    ∧ (syncTagsTwoWayM "obsidian" ["a", "obsidian"] (some contentABC) (some ["a", "b"])).push
        = some ["a", "c", "obsidian"]
    ∧ (syncTagsTwoWayM "obsidian" ["a", "obsidian"] (some contentABC)
        (some ["a", "b"])).newLastSynced = ["a", "c"]
    ∧ skipItem [("K", 3)] [("K", ["a", "c"])] false itemK (some contentAC) = true
    ∧ (syncTagsTwoWayM "obsidian" ["a", "obsidian"] (some contentAC) (some ["a", "c"])).push
        = none
    ∧ (syncTagsTwoWayM "obsidian" ["a", "obsidian"] (some contentAC) (some ["a", "c"])).merged
        = ["a"] := by
  decide

/-- Counterexample to C6 as stated: in the concrete write-failure cycle the
error is recorded and the version baseline of K keeps its pre-cycle value 1,
but the tag baseline of K does not remain at its pre-cycle value a, b: the
tag-merge step, which runs before the write, has already advanced it to the
merged set a, c. -/
theorem spec2_C6_counterexample :
    ((syncAll env6 st6).1).errors = ["Error processing item K: disk full"]
    ∧ lookupA ((syncAll env6 st6).2.1).settings.itemVersions "K" = some 1
    ∧ lookupA st6.settings.lastSyncedTags "K" = some ["a", "b"]
    ∧ lookupA ((syncAll env6 st6).2.1).settings.lastSyncedTags "K" = some ["a", "c"]
    ∧ ¬ (some ["a", "c"] : Option (List String)) = some ["a", "b"] := by
  decide

/-- C6 as amended: a write failure after the tag merge is caught, recorded
with the record key, and the cycle continues; the version baseline and the
vault keep their pre-cycle values, so the record is retried, but the tag
baseline has already been set to the merged tag set by the tag-merge step
that ran before the write. -/
theorem spec2_C6 :
    (∀ (env : Env) (st : SyncSt) (item : ZItem) (m : String),
      env.buildFail item.key = none →
      env.writeFail item.key = some m →
      skipItem st.settings.itemVersions st.settings.lastSyncedTags
        st.settings.hasLocalCache item (existingOf env st item) = false →
      (processItem env st item).2.1 =
          ItemOut.errored ("Error processing item " ++ item.key ++ ": " ++ m)
        ∧ lookupA ((processItem env st item).1).settings.itemVersions item.key =
            lookupA st.settings.itemVersions item.key
        ∧ ((processItem env st item).1).vault = st.vault
        ∧ lookupA ((processItem env st item).1).settings.lastSyncedTags item.key =
            some (syncTagsTwoWayM st.settings.syncTag item.tags (existingOf env st item)
              (lookupA st.settings.lastSyncedTags item.key)).newLastSynced)
    ∧ ((syncAll env6 st6).1).created = 1
    ∧ ((syncAll env6 st6).1).errors = ["Error processing item K: disk full"] := by
  refine ⟨?_, by decide, by decide⟩
  intro env st item m hb hw hskip
  have e1 := resolveFilename_itemVersions env st.settings item
  have e2 := resolveFilename_lastSyncedTags env st.settings item
  have e3 := resolveFilename_hasLocalCache env st.settings item
  have e4 := resolveFilename_syncTag env st.settings item
  unfold existingOf at hskip
  simp only [processItem, e1, e2, e3, e4]
  rw [hskip]
  simp only [Bool.false_eq_true, if_false]
  rw [hb, hw]
  refine ⟨rfl, rfl, rfl, ?_⟩
  rw [lookupA_insertA_self]
  unfold existingOf
  rfl

/-- Witness for the amended C6 at the concrete write-failure input. -/
theorem spec2_C6_witness :
    (processItem env6 st6 itemK).2.1 =
        ItemOut.errored ("Error processing item " ++ itemK.key ++ ": " ++ "disk full")
      ∧ lookupA ((processItem env6 st6 itemK).1).settings.itemVersions itemK.key =
          lookupA st6.settings.itemVersions itemK.key
      ∧ ((processItem env6 st6 itemK).1).vault = st6.vault
      ∧ lookupA ((processItem env6 st6 itemK).1).settings.lastSyncedTags itemK.key =
          some (syncTagsTwoWayM st6.settings.syncTag itemK.tags (existingOf env6 st6 itemK)
            (lookupA st6.settings.lastSyncedTags itemK.key)).newLastSynced :=
  spec2_C6.1 env6 st6 itemK "disk full" rfl (by decide) (by decide)

/-- C7: a second full cycle with no intervening remote change is a no-op:
when the in-progress flag is clear, the user id is configured, the second
fetch does not fail, the cursor after the first cycle is positive and the
incremental fetch at that cursor reports no changes, the second cycle
terminates immediately with all-zero counts and returns the state of the
first cycle unchanged — every baseline (library version, per-record versions,
tag baselines) is identical before and after the second run. -/
theorem spec2_C7 (env1 env2 : Env) (st : SyncSt)
    (h0 : st.isSyncing = false)
    (h1 : ¬ st.settings.userId = "")
    (h2 : env2.fetchFail = none)
    (hL : 0 < ((syncAll env1 st).2.1).settings.lastSyncVersion)
    (hnc : (env2.fetch (some ((syncAll env1 st).2.1).settings.lastSyncVersion)).1 = []) :
    syncAll env2 ((syncAll env1 st).2.1) = (⟨0, 0, 0, []⟩, (syncAll env1 st).2.1, []) := by
  have hs : ((syncAll env1 st).2.1).isSyncing = false := syncAll_isSyncing_false env1 st h0
  have hequ : (((syncAll env1 st).2.1).settings.userId == "") = false := by
    rw [syncAll_userId env1 st]
    exact beq_eq_false_iff_ne.mpr h1
  revert hs hequ hL hnc
  generalize (syncAll env1 st).2.1 = st1
  intro hL hnc hs hequ
  obtain ⟨se, va, sy⟩ := st1
  simp only at hs
  subst hs
  simp only at hequ hL hnc
  unfold syncAll
  simp only [Bool.false_eq_true, if_false, hequ, h2]
  rw [if_pos hL]
  simp only [hnc, List.length_nil, Nat.zero_eq, decide_eq_true hL]
  rfl

/-- Witness for C7: a concrete first cycle at cursor 5 with an unchanged
remote; the second cycle returns all-zero counts and the identical state. -/
theorem spec2_C7_witness :
    syncAll env7 ((syncAll env7 st7).2.1) = (⟨0, 0, 0, []⟩, (syncAll env7 st7).2.1, []) :=
  spec2_C7 env7 env7 st7 rfl (by decide) rfl (by decide) (by decide)
